import Mathlib

/-!
Shallow embedding of `src/macro.rs` from `json_macros`: a compile-time
translator from a JSON-like token tree to an expression that constructs a
`serialize::json` value.  Spans are modelled as natural numbers, tokens and
token trees as inductive types, the emitted diagnostics (`cx.span_err`) as an
explicit list threaded through each function's result, and the generated
Rust expressions as an inductive `Expr` mirroring the quoted templates.
-/

namespace JsonLit

/-- Delimiter of a `TtDelimited` group (`token::Bracket`/`Brace`/`Paren`). -/
inductive Delim
  | bracket
  | brace
  | paren
deriving DecidableEq, Repr

/-- The leaf tokens relevant to `macro.rs`.  `litStr`/`litInteger`/`litFloat`
carry the literal's text (`n.as_str()` resp. the spliced literal token);
`ident` carries the identifier's text and whether it is a plain identifier
(`token::Plain`); `minus` is the separate `-` punctuation token; `other`
stands for any remaining token, carrying its pretty-printed text. -/
inductive Token
  | litStr (s : String)
  | litInteger (s : String)
  | litFloat (s : String)
  | ident (nm : String) (plain : Bool)
  | comma
  | colon
  | minus
  | other (text : String)
deriving DecidableEq, Repr

/-- `syntax::ast::TokenTree`: a leaf token with its span, a delimited group
(`TtDelimited`, span + delimiter + children), or a `TtSequence` node. -/
inductive TokenTree
  | ttToken (sp : Nat) (tok : Token)
  | ttDelimited (sp : Nat) (delim : Delim) (tts : List TokenTree)
  | ttSequence (sp : Nat)
deriving Repr

/-- A diagnostic emitted by `cx.span_err`: a span and a message. -/
structure Diag where
  sp : Nat
  msg : String
deriving DecidableEq, Repr

/-- `pprust`-style rendering of a leaf token, used in error messages. -/
def Token.render : Token → String
  | .litStr s => "\"" ++ s ++ "\""
  | .litInteger s => s
  | .litFloat s => s
  | .ident nm _ => nm
  | .comma => ","
  | .colon => ":"
  | .minus => "-"
  | .other text => text

mutual
/-- `pprust::tt_to_string` on a token tree (the exact text of groups is not
load-bearing; error-message claims only depend on leaf-token rendering). -/
def TokenTree.render : TokenTree → String
  | .ttToken _ tok => tok.render
  | .ttDelimited _ .bracket tts => "[" ++ renderList tts ++ "]"
  | .ttDelimited _ .brace tts => "\x7b" ++ renderList tts ++ "\x7d"
  | .ttDelimited _ .paren tts => "(" ++ renderList tts ++ ")"
  | .ttSequence _ => "$(...)"

def renderList : List TokenTree → String
  | [] => ""
  | [t] => TokenTree.render t
  | t :: ts => TokenTree.render t ++ " " ++ renderList ts
end

/-- The generated host expression, mirroring the quoted templates in
`macro.rs`: `json::String($s.into_string())`, `json::I64($tt as i64)`,
`json::F64($tt)`, `json::Null`, `json::Boolean(b)`, the `json::List` block,
the `json::Object` block (a fresh `TreeMap` receiving `insert` calls in
source order), and the parenthesized-escape block `($expr).to_json()`
(the external expression parser is outside this core, so the escape node
keeps the token sequence handed to it). -/
inductive Expr
  | jstring (s : String)
  | i64 (lit : String)
  | f64 (lit : String)
  | null
  | boolean (b : Bool)
  | list (xs : List Expr)
  | object (pairs : List (String × Expr))
  | toJson (toks : List TokenTree)
deriving Repr

/-- `fn best_span`: prefer a leaf token's own span, otherwise fall back to
the span passed in by the caller. -/
def best_span (sp : Nat) : TokenTree → Nat
  | .ttToken tokSp _ => tokSp
  | _ => sp

/-- The message text of `fn expected_but_found`. -/
def expectedMsg (expected : String) (found : TokenTree) : String :=
  "expected " ++ expected ++ " but found: `" ++ found.render ++ "`"

/-- `fn expected_but_found`: the diagnostic it emits via `cx.span_err`. -/
def expected_but_found (sp : Nat) (expected : String) (found : TokenTree) : Diag :=
  ⟨best_span sp found, expectedMsg expected found⟩

/-- The message of the scalar classifier's catch-all error:
`format!("unexpected `{}` in JSON", s)`. -/
def unexpectedMsg (tok : Token) : String :=
  "unexpected `" ++ tok.render ++ "` in JSON"

/-- `fn token_to_expr`: classify one leaf token as a scalar-value expression,
or emit one diagnostic and fail.  Arms in source order: string, integer and
float literals; the plain identifier `null`; the keywords `true` and `false`;
a catch-all `cx.span_err(sp, "unexpected ... in JSON")`. -/
def token_to_expr (sp : Nat) (tok : Token) : List Diag × Option Expr :=
  match tok with
  | .litStr s => ([], some (.jstring s))
  | .litInteger s => ([], some (.i64 s))
  | .litFloat s => ([], some (.f64 s))
  | .ident nm plain =>
      if plain && nm == "null" then ([], some .null)
      else if nm == "true" then ([], some (.boolean true))
      else if nm == "false" then ([], some (.boolean false))
      else ([⟨sp, unexpectedMsg (.ident nm plain)⟩], none)
  | t => ([⟨sp, unexpectedMsg t⟩], none)

mutual
/-- `fn tt_to_expr`: the recursive dispatcher.  A leaf token goes to the
classifier; a bracket group to the array assembler (wrapped in the
`json::List` template); a brace group to the object assembler (wrapped in
the `TreeMap`-insert `json::Object` template); a paren group to the escape
path (`cx.new_parser_from_tts` + `parse_expr`, wrapped in `.to_json()`,
with no validation by this core); a `TtSequence` fails with one
diagnostic. -/
def tt_to_expr : TokenTree → List Diag × Option Expr
  | .ttToken sp tok => token_to_expr sp tok
  | .ttDelimited sp .bracket toks =>
      match parse_array sp toks with
      | (ds, none) => (ds, none)
      | (ds, some exprs) => (ds, some (.list exprs))
  | .ttDelimited sp .brace toks =>
      match parse_object sp toks with
      | (ds, none) => (ds, none)
      | (ds, some items) => (ds, some (.object items))
  | .ttDelimited _ .paren toks => ([], some (.toJson toks))
  | .ttSequence sp => ([⟨sp, "`json!` unexpected TtSequence"⟩], none)

/-- `fn parse_array`: the `for (i, tt) in tts.iter().enumerate()` loop,
started at index 0. -/
def parse_array (sp : Nat) (tts : List TokenTree) : List Diag × Option (List Expr) :=
  parse_array_go sp 0 tts

/-- The body of `fn parse_array`'s loop at index `i`: an odd index must be
exactly a comma token (anything else emits `expected_but_found` and fails);
an even index is translated as a value by `tt_to_expr`, failure aborting
the whole array.  Collected expressions keep encounter order. -/
def parse_array_go (sp i : Nat) : List TokenTree → List Diag × Option (List Expr)
  | [] => ([], some [])
  | tt :: rest =>
      if i % 2 == 1 then
        match tt with
        | .ttToken _ .comma => parse_array_go sp (i + 1) rest
        | _ => ([expected_but_found sp "`,`" tt], none)
      else
        match tt_to_expr tt with
        | (ds, none) => (ds, none)
        | (ds, some e) =>
            match parse_array_go sp (i + 1) rest with
            | (ds2, none) => (ds ++ ds2, none)
            | (ds2, some es) => (ds ++ ds2, some (e :: es))

/-- `fn parse_object`: the `for entry in tts.chunks(4)` loop, written as
direct recursion consuming one chunk at a time (a chunk of fewer than four
tokens only arises at the end of the sequence, exactly as with `chunks`).
The arms appear in the source's priority order:
`[str, colon, v]` (final chunk) and `[str, colon, v, comma]` emit a pair;
`[str, colon, v, tt]` fails expecting a comma; `[str, colon]` fails at the
colon's span; `[str, tt, ..]` fails expecting a colon; `[str]` fails at the
string's span; anything else fails expecting a string literal. -/
def parse_object (sp : Nat) : List TokenTree → List Diag × Option (List (String × Expr))
  | [] => ([], some [])
  | [.ttToken _ (.litStr n), .ttToken _ .colon, v] =>
      (match tt_to_expr v with
       | (ds, none) => (ds, none)
       | (ds, some e) => (ds, some [(n, e)]))
  | .ttToken _ (.litStr n) :: .ttToken _ .colon :: v :: .ttToken _ .comma :: rest =>
      (match tt_to_expr v with
       | (ds, none) => (ds, none)
       | (ds, some e) =>
           match parse_object sp rest with
           | (ds2, none) => (ds ++ ds2, none)
           | (ds2, some items) => (ds ++ ds2, some ((n, e) :: items)))
  | .ttToken _ (.litStr _) :: .ttToken _ .colon :: _ :: tt :: _ =>
      ([expected_but_found sp "`,`" tt], none)
  | [.ttToken _ (.litStr _), .ttToken spC .colon] =>
      ([⟨spC, "found `:` but no value afterwards"⟩], none)
  | .ttToken _ (.litStr _) :: tt :: _ =>
      ([expected_but_found sp "`:`" tt], none)
  | [.ttToken spS (.litStr _)] =>
      ([⟨spS, "found name but no colon-value afterwards"⟩], none)
  | tt :: _ =>
      ([expected_but_found sp "string literal" tt], none)
end

/-- `fn expand`'s result: either a real expression (`MacExpr::new`) or the
placeholder `DummyResult::expr(sp)`. -/
inductive MacResult
  | macExpr (e : Expr)
  | dummy (sp : Nat)
deriving Repr

/-- `fn expand`: with no tokens, emit "expected JSON literal" and return the
dummy placeholder; otherwise translate `tts.get(0)` (later trees are never
looked at), returning the placeholder exactly when translation fails. -/
def expand (sp : Nat) (tts : List TokenTree) : List Diag × MacResult :=
  match tts with
  | [] => ([⟨sp, "expected JSON literal"⟩], .dummy sp)
  | tt :: _ =>
      match tt_to_expr tt with
      | (ds, none) => (ds, .dummy sp)
      | (ds, some e) => (ds, .macExpr e)

/-!
Runtime model of the generated object expression.  The `Brace` arm of
`tt_to_expr` emits a block creating a fresh `::std::collections::TreeMap`
and running `$ob.insert($key, $value)` once per parsed pair, in source
order.  A `TreeMap<String, _>` is modelled as its key-sorted association
list; `insert` places a new key at its sorted position and overwrites the
value of an existing key.
-/

/-- `TreeMap::insert` on the key-sorted association list. -/
def tmInsert {α : Type} : List (String × α) → String → α → List (String × α)
  | [], k, v => [(k, v)]
  | (k0, v0) :: rest, k, v =>
      if k < k0 then (k, v) :: (k0, v0) :: rest
      else if k = k0 then (k0, v) :: rest
      else (k0, v0) :: tmInsert rest k v

/-- `TreeMap` lookup on the association list. -/
def tmLookup {α : Type} : List (String × α) → String → Option α
  | [], _ => none
  | (k0, v0) :: rest, k => if k = k0 then some v0 else tmLookup rest k

/-- The value built at runtime by the generated object block: each parsed
(key, value) pair is inserted, in source order, into a fresh map. -/
def buildObject {α : Type} (pairs : List (String × α)) : List (String × α) :=
  pairs.foldl (fun m kv => tmInsert m kv.1 kv.2) []

/-!
Statement helpers (used only to phrase the claims, not part of the
embedded program).
-/

/-- Is this token tree exactly a comma leaf token? -/
def isCommaTT : TokenTree → Bool
  | .ttToken _ .comma => true
  | _ => false

/-- The elements at even (0-indexed) positions of a list. -/
def evens : List TokenTree → List TokenTree
  | [] => []
  | [t] => [t]
  | t :: _ :: rest => t :: evens rest

/-- Every element at an odd (0-indexed) position is a comma token. -/
def oddCommas : List TokenTree → Bool
  | [] => true
  | [_] => true
  | _ :: s :: rest => isCommaTT s && oddCommas rest

/-- The token classifier's domain: string/integer/float literals, the plain
identifier `null`, and the keywords `true`/`false`. -/
def classifiable : Token → Bool
  | .litStr _ => true
  | .litInteger _ => true
  | .litFloat _ => true
  | .ident nm plain => (plain && nm == "null") || nm == "true" || nm == "false"
  | _ => false

/-- Token sequence of a well-formed object entry list: each entry
`(span, key, value-tree)` contributes `"key" : value ,`. -/
def flattenEntries : List (Nat × String × TokenTree) → List TokenTree
  | [] => []
  | (s, k, v) :: rest =>
      .ttToken s (.litStr k) :: .ttToken s .colon :: v :: .ttToken s .comma ::
        flattenEntries rest

/-!
Fuel-indexed variant of the translator: identical arm-for-arm to
`tt_to_expr`/`parse_array`/`parse_array_go`/`parse_object`, except that
every call consumes one unit of fuel and exhausted fuel returns `none`.
It is the instrument for the termination claim: a run with fuel equal to
the input's size never exhausts the fuel and agrees with the translator,
so every recursive call chain is strictly bounded by the input tree. -/

mutual
/-- Size of a token tree (leaves count 1, a group counts 2 plus its
children) — an upper bound on the translator's recursion depth. -/
def TokenTree.size : TokenTree → Nat
  | .ttToken _ _ => 1
  | .ttDelimited _ _ tts => 2 + sizeList tts
  | .ttSequence _ => 1

/-- Size of a token-tree list (positive by construction). -/
def sizeList : List TokenTree → Nat
  | [] => 1
  | t :: ts => 1 + TokenTree.size t + sizeList ts
end

mutual
/-- `tt_to_expr` with explicit fuel. -/
def tt_to_expr_fuel : Nat → TokenTree → Option (List Diag × Option Expr)
  | 0, _ => none
  | _ + 1, .ttToken sp tok => some (token_to_expr sp tok)
  | n + 1, .ttDelimited sp .bracket toks =>
      (match parse_array_fuel n sp toks with
       | none => none
       | some (ds, none) => some (ds, none)
       | some (ds, some exprs) => some (ds, some (.list exprs)))
  | n + 1, .ttDelimited sp .brace toks =>
      (match parse_object_fuel n sp toks with
       | none => none
       | some (ds, none) => some (ds, none)
       | some (ds, some items) => some (ds, some (.object items)))
  | _ + 1, .ttDelimited _ .paren toks => some ([], some (.toJson toks))
  | _ + 1, .ttSequence sp => some ([⟨sp, "`json!` unexpected TtSequence"⟩], none)

/-- `parse_array` with explicit fuel. -/
def parse_array_fuel : Nat → Nat → List TokenTree → Option (List Diag × Option (List Expr))
  | 0, _, _ => none
  | n + 1, sp, tts => parse_array_go_fuel n sp 0 tts

/-- `parse_array_go` with explicit fuel. -/
def parse_array_go_fuel : Nat → Nat → Nat → List TokenTree → Option (List Diag × Option (List Expr))
  | 0, _, _, _ => none
  | _ + 1, _, _, [] => some ([], some [])
  | n + 1, sp, i, tt :: rest =>
      if i % 2 == 1 then
        match tt with
        | .ttToken _ .comma => parse_array_go_fuel n sp (i + 1) rest
        | _ => some ([expected_but_found sp "`,`" tt], none)
      else
        match tt_to_expr_fuel n tt with
        | none => none
        | some (ds, none) => some (ds, none)
        | some (ds, some e) =>
            match parse_array_go_fuel n sp (i + 1) rest with
            | none => none
            | some (ds2, none) => some (ds ++ ds2, none)
            | some (ds2, some es) => some (ds ++ ds2, some (e :: es))

/-- `parse_object` with explicit fuel. -/
def parse_object_fuel : Nat → Nat → List TokenTree → Option (List Diag × Option (List (String × Expr)))
  | 0, _, _ => none
  | _ + 1, _, [] => some ([], some [])
  | n + 1, _, [.ttToken _ (.litStr nm), .ttToken _ .colon, v] =>
      (match tt_to_expr_fuel n v with
       | none => none
       | some (ds, none) => some (ds, none)
       | some (ds, some e) => some (ds, some [(nm, e)]))
  | n + 1, sp, .ttToken _ (.litStr nm) :: .ttToken _ .colon :: v :: .ttToken _ .comma :: rest =>
      (match tt_to_expr_fuel n v with
       | none => none
       | some (ds, none) => some (ds, none)
       | some (ds, some e) =>
           match parse_object_fuel n sp rest with
           | none => none
           | some (ds2, none) => some (ds ++ ds2, none)
           | some (ds2, some items) => some (ds ++ ds2, some ((nm, e) :: items)))
  | _ + 1, sp, .ttToken _ (.litStr _) :: .ttToken _ .colon :: _ :: tt :: _ =>
      some ([expected_but_found sp "`,`" tt], none)
  | _ + 1, _, [.ttToken _ (.litStr _), .ttToken spC .colon] =>
      some ([⟨spC, "found `:` but no value afterwards"⟩], none)
  | _ + 1, sp, .ttToken _ (.litStr _) :: tt :: _ =>
      some ([expected_but_found sp "`:`" tt], none)
  | _ + 1, _, [.ttToken spS (.litStr _)] =>
      some ([⟨spS, "found name but no colon-value afterwards"⟩], none)
  | _ + 1, sp, tt :: _ =>
      some ([expected_but_found sp "string literal" tt], none)
end

/-- Discipline of a translator result: success comes with no emitted
diagnostics, failure with exactly one. -/
def DiagOk {α : Type} (r : List Diag × Option α) : Prop :=
  (∃ x, r = ([], some x)) ∨ (∃ d, r = ([d], none))

lemma size_pos : ∀ tt : TokenTree, 1 ≤ tt.size := by
  intro tt; cases tt <;> (simp [TokenTree.size]; try omega)

lemma sizeList_pos : ∀ tts : List TokenTree, 1 ≤ sizeList tts := by
  intro tts; cases tts <;> (simp [sizeList]; try omega)

lemma diag_inv :
    (∀ tt, DiagOk (tt_to_expr tt)) ∧
    (∀ sp tts, DiagOk (parse_object sp tts)) ∧
    (∀ sp tts, DiagOk (parse_array sp tts)) ∧
    (∀ sp i tts, DiagOk (parse_array_go sp i tts)) := by
  apply tt_to_expr.mutual_induct
    (fun tt => DiagOk (tt_to_expr tt))
    (fun sp tts => DiagOk (parse_object sp tts))
    (fun sp tts => DiagOk (parse_array sp tts))
    (fun sp i tts => DiagOk (parse_array_go sp i tts))
  case case1 =>
    intro sp tok
    cases tok <;> (simp [DiagOk, tt_to_expr, token_to_expr]; try (split_ifs <;> simp))
  case case23 =>
    intro sp i tt rest h ds htt ih
    rw [parse_array_go.eq_def]
    simp_all [DiagOk]
  case case24 =>
    intro sp i tt rest h ds e htt ds2 hrest ih1 ih2
    rw [parse_array_go.eq_def]
    simp_all [DiagOk]
  case case25 =>
    intro sp i tt rest h ds e htt ds2 es hrest ih1 ih2
    rw [parse_array_go.eq_def]
    simp_all [DiagOk]
  all_goals
    intros
    simp_all [DiagOk, tt_to_expr, parse_object, parse_array, parse_array_go,
      token_to_expr]

/-- The array loop's behaviour depends only on the parity of the index. -/
lemma parse_array_go_parity (sp : Nat) (tts : List TokenTree) :
    ∀ i j, i % 2 = j % 2 → parse_array_go sp i tts = parse_array_go sp j tts := by
  induction tts with
  | nil => intro i j _; simp [parse_array_go]
  | cons tt rest ih =>
      intro i j h
      have h2 : (i + 1) % 2 = (j + 1) % 2 := by omega
      rw [parse_array_go.eq_def]
      conv_rhs => rw [parse_array_go.eq_def]
      simp only [h, ih (i + 1) (j + 1) h2]

lemma parse_array_nil (sp : Nat) : parse_array sp [] = ([], some []) := by
  simp [parse_array, parse_array_go]

lemma parse_array_single (sp : Nat) (a : TokenTree) :
    parse_array sp [a] =
      (match tt_to_expr a with
       | (ds, none) => (ds, none)
       | (ds, some e) => (ds, some [e])) := by
  rw [parse_array, parse_array_go.eq_def]
  rcases h : tt_to_expr a with ⟨ds, _ | e⟩ <;> simp [h, parse_array_go]

/-- Unrolling the array loop one value-comma step at a time. -/
lemma parse_array_cons2 (sp : Nat) (a b : TokenTree) (rest : List TokenTree) :
    parse_array sp (a :: b :: rest) =
      (match tt_to_expr a with
       | (ds, none) => (ds, none)
       | (ds, some e) =>
           match b with
           | .ttToken _ .comma =>
               (match parse_array sp rest with
                | (ds2, none) => (ds ++ ds2, none)
                | (ds2, some es) => (ds ++ ds2, some (e :: es)))
           | _ => (ds ++ [expected_but_found sp "`,`" b], none)) := by
  rw [parse_array, parse_array_go.eq_def]
  rcases h : tt_to_expr a with ⟨ds, _ | e⟩
  · simp [h]
  · have h02 : parse_array_go sp 2 rest = parse_array_go sp 0 rest :=
      parse_array_go_parity sp rest 2 0 (by omega)
    rcases b with ⟨s, tok⟩ | ⟨s, d, l⟩ | s
    · cases tok <;> simp [h, h02, parse_array, parse_array_go]
    · simp [h, parse_array_go]
    · simp [h, parse_array_go]

lemma fuel_ok :
    (∀ tt, ∀ n, tt.size ≤ n → tt_to_expr_fuel n tt = some (tt_to_expr tt)) ∧
    (∀ sp tts, ∀ n, sizeList tts ≤ n →
      parse_object_fuel n sp tts = some (parse_object sp tts)) ∧
    (∀ sp tts, ∀ n, sizeList tts + 1 ≤ n →
      parse_array_fuel n sp tts = some (parse_array sp tts)) ∧
    (∀ sp i tts, ∀ n, sizeList tts ≤ n →
      parse_array_go_fuel n sp i tts = some (parse_array_go sp i tts)) := by
  apply tt_to_expr.mutual_induct
    (fun tt => ∀ n, tt.size ≤ n → tt_to_expr_fuel n tt = some (tt_to_expr tt))
    (fun sp tts => ∀ n, sizeList tts ≤ n →
      parse_object_fuel n sp tts = some (parse_object sp tts))
    (fun sp tts => ∀ n, sizeList tts + 1 ≤ n →
      parse_array_fuel n sp tts = some (parse_array sp tts))
    (fun sp i tts => ∀ n, sizeList tts ≤ n →
      parse_array_go_fuel n sp i tts = some (parse_array_go sp i tts))
  case case1 =>
    intro sp tok n hn
    rcases n with _ | m
    · exact absurd hn (by simp [TokenTree.size, sizeList])
    · simp [tt_to_expr_fuel, tt_to_expr]
  case case2 =>
    intro sp tts ds hpa ih n hn
    rcases n with _ | m
    · exact absurd hn (by simp [TokenTree.size, sizeList])
    · simp only [TokenTree.size] at hn
      simp [tt_to_expr_fuel, tt_to_expr, ih m (by omega), hpa]
  case case3 =>
    intro sp tts ds exprs hpa ih n hn
    rcases n with _ | m
    · exact absurd hn (by simp [TokenTree.size, sizeList])
    · simp only [TokenTree.size] at hn
      simp [tt_to_expr_fuel, tt_to_expr, ih m (by omega), hpa]
  case case4 =>
    intro sp tts ds hpo ih n hn
    rcases n with _ | m
    · exact absurd hn (by simp [TokenTree.size, sizeList])
    · simp only [TokenTree.size] at hn
      simp [tt_to_expr_fuel, tt_to_expr, ih m (by omega), hpo]
  case case5 =>
    intro sp tts ds items hpo ih n hn
    rcases n with _ | m
    · exact absurd hn (by simp [TokenTree.size, sizeList])
    · simp only [TokenTree.size] at hn
      simp [tt_to_expr_fuel, tt_to_expr, ih m (by omega), hpo]
  case case6 =>
    intro sp tts n hn
    rcases n with _ | m
    · exact absurd hn (by simp [TokenTree.size, sizeList])
    · simp [tt_to_expr_fuel, tt_to_expr]
  case case7 =>
    intro sp n hn
    rcases n with _ | m
    · exact absurd hn (by simp [TokenTree.size, sizeList])
    · simp [tt_to_expr_fuel, tt_to_expr]
  case case8 =>
    intro sp n hn
    rcases n with _ | m
    · exact absurd hn (by simp [sizeList])
    · simp [parse_object_fuel, parse_object]
  case case9 =>
    intro sp sp1 nm sp2 v ds hvt ih n hn
    rcases n with _ | m
    · exact absurd hn (by simp [TokenTree.size, sizeList])
    · simp only [TokenTree.size, sizeList] at hn
      simp [parse_object_fuel, parse_object, ih m (by omega), hvt]
  case case10 =>
    intro sp sp1 nm sp2 v ds e hvt ih n hn
    rcases n with _ | m
    · exact absurd hn (by simp [TokenTree.size, sizeList])
    · simp only [TokenTree.size, sizeList] at hn
      simp [parse_object_fuel, parse_object, ih m (by omega), hvt]
  case case11 =>
    intro sp sp1 nm sp2 v sp3 rest ds hvt ih n hn
    rcases n with _ | m
    · exact absurd hn (by simp [TokenTree.size, sizeList])
    · simp only [TokenTree.size, sizeList] at hn
      simp [parse_object_fuel, parse_object, ih m (by omega), hvt]
  case case12 =>
    intro sp sp1 nm sp2 v sp3 rest ds e hvt ds2 hrest ihv ihr n hn
    rcases n with _ | m
    · exact absurd hn (by simp [TokenTree.size, sizeList])
    · simp only [TokenTree.size, sizeList] at hn
      simp [parse_object_fuel, parse_object, ihv m (by omega), ihr m (by omega),
        hvt, hrest]
  case case13 =>
    intro sp sp1 nm sp2 v sp3 rest ds e hvt ds2 items hrest ihv ihr n hn
    rcases n with _ | m
    · exact absurd hn (by simp [TokenTree.size, sizeList])
    · simp only [TokenTree.size, sizeList] at hn
      simp [parse_object_fuel, parse_object, ihv m (by omega), ihr m (by omega),
        hvt, hrest]
  case case14 =>
    intro sp sp1 s sp2 head tt tail hnc n hn
    rcases n with _ | m
    · exact absurd hn (by simp [TokenTree.size, sizeList])
    · simp_all [parse_object_fuel, parse_object]
  case case15 =>
    intro sp sp1 s spC n hn
    rcases n with _ | m
    · exact absurd hn (by simp [TokenTree.size, sizeList])
    · simp [parse_object_fuel, parse_object]
  case case16 =>
    intro sp sp1 s tt tail h1 h2 h3 h4 n hn
    rcases n with _ | m
    · exact absurd hn (by simp [TokenTree.size, sizeList])
    · simp_all [parse_object_fuel, parse_object]
  case case17 =>
    intro sp spS s n hn
    rcases n with _ | m
    · exact absurd hn (by simp [TokenTree.size, sizeList])
    · simp [parse_object_fuel, parse_object]
  case case18 =>
    intro sp tt tail h1 h2 h3 h4 h5 h6 n hn
    rcases n with _ | m
    · exact absurd hn (by simp [TokenTree.size, sizeList])
    · simp_all [parse_object_fuel, parse_object]
  case case19 =>
    intro sp tts ih n hn
    rcases n with _ | m
    · exact absurd hn (by omega)
    · rw [parse_array]
      simpa [parse_array_fuel] using ih m (by omega)
  case case20 =>
    intro sp i n hn
    rcases n with _ | m
    · exact absurd hn (by simp [sizeList])
    · simp [parse_array_go_fuel, parse_array_go]
  case case21 =>
    intro sp i rest hodd sp1 ih n hn
    rcases n with _ | m
    · exact absurd hn (by simp [TokenTree.size, sizeList])
    · simp only [TokenTree.size, sizeList] at hn
      simp [parse_array_go_fuel, parse_array_go, hodd, ih m (by omega)]
  case case22 =>
    intro sp i tt rest hodd hnc n hn
    rcases n with _ | m
    · exact absurd hn (by simp [TokenTree.size, sizeList])
    · simp_all [parse_array_go_fuel, parse_array_go]
  case case23 =>
    intro sp i tt rest heven ds htt ih n hn
    rcases n with _ | m
    · exact absurd hn (by simp [TokenTree.size, sizeList])
    · simp only [TokenTree.size, sizeList] at hn
      rw [parse_array_go_fuel.eq_def, parse_array_go.eq_def]
      simp [heven, ih m (by omega), htt]
  case case24 =>
    intro sp i tt rest heven ds e htt ds2 hrest ihv ihr n hn
    rcases n with _ | m
    · exact absurd hn (by simp [TokenTree.size, sizeList])
    · simp only [TokenTree.size, sizeList] at hn
      rw [parse_array_go_fuel.eq_def, parse_array_go.eq_def]
      simp [heven, ihv m (by omega), ihr m (by omega), htt, hrest]
  case case25 =>
    intro sp i tt rest heven ds e htt ds2 es hrest ihv ihr n hn
    rcases n with _ | m
    · exact absurd hn (by simp [TokenTree.size, sizeList])
    · simp only [TokenTree.size, sizeList] at hn
      rw [parse_array_go_fuel.eq_def, parse_array_go.eq_def]
      simp [heven, ihv m (by omega), ihr m (by omega), htt, hrest]

lemma tmLookup_tmInsert {α : Type} (m : List (String × α)) (k : String) (v : α) :
    tmLookup (tmInsert m k v) k = some v := by
  induction m with
  | nil => simp [tmInsert, tmLookup]
  | cons kv rest ih =>
      obtain ⟨k0, v0⟩ := kv
      by_cases h1 : k < k0
      · simp [tmInsert, h1, tmLookup]
      · by_cases h2 : k = k0
        · simp [tmInsert, h1, h2, tmLookup]
        · simp [tmInsert, h1, h2, tmLookup, ih]

lemma buildObject_lastWrite {α : Type} (ps : List (String × α)) (k : String) (v : α) :
    tmLookup (buildObject (ps ++ [(k, v)])) k = some v := by
  simp [buildObject, List.foldl_append]
  exact tmLookup_tmInsert _ k v

/-- A well-formed entry sequence (every entry `"key" : value ,`) parses to
exactly its pairs in source order, with no diagnostics — `parse_object`
never inspects or compares keys. -/
lemma parse_object_flatten (sp : Nat) :
    ∀ (entries : List (Nat × String × TokenTree)) (vs : List Expr),
      (entries.map fun e => (tt_to_expr e.2.2).2) = vs.map some →
      parse_object sp (flattenEntries entries) =
        ([], some ((entries.map fun e => e.2.1).zip vs)) := by
  intro entries
  induction entries with
  | nil =>
      intro vs h
      simp at h
      simp [h, flattenEntries, parse_object]
  | cons ent rest ih =>
      intro vs h
      obtain ⟨s, k, v⟩ := ent
      rcases vs with _ | ⟨v0, vs'⟩
      · simp at h
      · simp at h
        obtain ⟨h1, h2⟩ := h
        have hv : tt_to_expr v = ([], some v0) := by
          rcases diag_inv.1 v with ⟨x, hx⟩ | ⟨d, hd⟩
          · rw [hx] at h1 ⊢
            simp at h1
            rw [h1]
          · rw [hd] at h1
            simp at h1
        simp [flattenEntries, parse_object, hv, ih vs' h2]

/-- Soundness of the array loop: a successful parse means every odd
position was a comma, no diagnostic was emitted, and the collected values
are the translations of the even positions in order. -/
lemma parse_array_sound (sp : Nat) :
    ∀ (tts : List TokenTree) (ds : List Diag) (es : List Expr),
      parse_array sp tts = (ds, some es) →
      oddCommas tts = true ∧ ds = [] ∧
        (evens tts).map (fun tt => (tt_to_expr tt).2) = es.map some := by
  intro tts
  induction tts using evens.induct with
  | case1 =>
      intro ds es h
      rw [parse_array_nil] at h
      obtain ⟨rfl, rfl⟩ : ds = [] ∧ es = [] := by
        constructor <;> injection h with h1 h2 <;> simp_all
      simp [oddCommas, evens]
  | case2 a =>
      intro ds es h
      rw [parse_array_single] at h
      rcases ha : tt_to_expr a with ⟨dsa, _ | e⟩
      · rw [ha] at h; simp at h
      · rw [ha] at h
        simp at h
        obtain ⟨rfl, rfl⟩ := h
        have : dsa = [] := by
          rcases diag_inv.1 a with ⟨x, hx⟩ | ⟨d, hd⟩
          · rw [hx] at ha; injection ha with h1 h2; simp_all
          · rw [hd] at ha; simp at ha
        simp [oddCommas, evens, ha, this]
  | case3 a b rest ih =>
      intro ds es h
      rw [parse_array_cons2] at h
      rcases ha : tt_to_expr a with ⟨dsa, _ | e⟩
      · rw [ha] at h; simp at h
      · rw [ha] at h
        rcases b with ⟨s, tok⟩ | ⟨s, d, l⟩ | s <;>
          [skip; (simp at h); (simp at h)]
        cases tok <;> try (simp at h)
        case comma =>
          rcases hrest : parse_array sp rest with ⟨ds2, _ | es'⟩
          · rw [hrest] at h; simp at h
          · rw [hrest] at h
            simp at h
            obtain ⟨rfl, rfl⟩ := h
            obtain ⟨hodd, hds2, hmap⟩ := ih ds2 es' hrest
            have hdsa : dsa = [] := by
              rcases diag_inv.1 a with ⟨x, hx⟩ | ⟨d, hd⟩
              · rw [hx] at ha; injection ha with h1 h2; simp_all
              · rw [hd] at ha; simp at ha
            simp [oddCommas, evens, isCommaTT, ha, hodd, hdsa, hds2, hmap]

/-- Completeness of the array loop: commas at every odd position and
translatable values at every even position yield a successful parse with
the values in order and no diagnostics. -/
lemma parse_array_complete (sp : Nat) :
    ∀ tts : List TokenTree, oddCommas tts = true →
      (∀ tt ∈ evens tts, ((tt_to_expr tt).2).isSome = true) →
      ∃ es, parse_array sp tts = ([], some es) ∧
        (evens tts).map (fun tt => (tt_to_expr tt).2) = es.map some := by
  intro tts
  induction tts using evens.induct with
  | case1 => intro _ _; exact ⟨[], parse_array_nil sp, by simp [evens]⟩
  | case2 a =>
      intro _ hv
      have := hv a (by simp [evens])
      rcases ha : tt_to_expr a with ⟨dsa, _ | e⟩
      · rw [ha] at this; simp at this
      · have hdsa : dsa = [] := by
          rcases diag_inv.1 a with ⟨x, hx⟩ | ⟨d, hd⟩
          · rw [hx] at ha; injection ha with h1 h2; simp_all
          · rw [hd] at ha; simp at ha
        refine ⟨[e], ?_, by simp [evens, ha]⟩
        rw [parse_array_single, ha, hdsa]
  | case3 a b rest ih =>
      intro hodd hv
      simp [oddCommas] at hodd
      obtain ⟨hb, hodd⟩ := hodd
      have hvals : ∀ tt ∈ evens rest, ((tt_to_expr tt).2).isSome = true := by
        intro tt htt; exact hv tt (by simp [evens]; exact Or.inr htt)
      obtain ⟨es, hes, hmap⟩ := ih hodd hvals
      have := hv a (by simp [evens])
      rcases ha : tt_to_expr a with ⟨dsa, _ | e⟩
      · rw [ha] at this; simp at this
      · have hdsa : dsa = [] := by
          rcases diag_inv.1 a with ⟨x, hx⟩ | ⟨d, hd⟩
          · rw [hx] at ha; injection ha with h1 h2; simp_all
          · rw [hd] at ha; simp at ha
        refine ⟨e :: es, ?_, by simp [evens, ha, hmap]⟩
        rw [parse_array_cons2, ha, hdsa]
        rcases b with ⟨s, tok⟩ | ⟨s, d, l⟩ | s <;> simp [isCommaTT] at hb
        cases tok <;> simp [isCommaTT] at hb
        simp [hes]

/-- The first failure of the array loop at an odd position: with a clean
prefix, a non-comma at an odd position yields exactly the
`expected_but_found` diagnostic for that token and aborts. -/
lemma parse_array_first_fail (sp : Nat) :
    ∀ (pre : List TokenTree) (b : TokenTree) (rest : List TokenTree),
      pre.length % 2 = 1 → oddCommas pre = true →
      (∀ tt ∈ evens pre, ((tt_to_expr tt).2).isSome = true) →
      isCommaTT b = false →
      parse_array sp (pre ++ b :: rest) =
        ([expected_but_found sp "`,`" b], none) := by
  intro pre
  induction pre using evens.induct with
  | case1 => intro b rest h; simp at h
  | case2 a =>
      intro b rest _ _ hv hb
      have := hv a (by simp [evens])
      rcases ha : tt_to_expr a with ⟨dsa, _ | e⟩
      · rw [ha] at this; simp at this
      · have hdsa : dsa = [] := by
          rcases diag_inv.1 a with ⟨x, hx⟩ | ⟨d, hd⟩
          · rw [hx] at ha; injection ha with h1 h2; simp_all
          · rw [hd] at ha; simp at ha
        rw [List.cons_append, List.nil_append, parse_array_cons2, ha, hdsa]
        rcases b with ⟨s, tok⟩ | ⟨s, d, l⟩ | s
        · cases tok <;> simp_all [isCommaTT]
        · simp
        · simp
  | case3 a c pre' ih =>
      intro b rest hlen hodd hv hb
      simp [oddCommas] at hodd
      obtain ⟨hc, hodd⟩ := hodd
      have hvals : ∀ tt ∈ evens pre', ((tt_to_expr tt).2).isSome = true := by
        intro tt htt; exact hv tt (by simp [evens]; exact Or.inr htt)
      have hlen' : pre'.length % 2 = 1 := by simp at hlen; omega
      have := hv a (by simp [evens])
      rcases ha : tt_to_expr a with ⟨dsa, _ | e⟩
      · rw [ha] at this; simp at this
      · have hdsa : dsa = [] := by
          rcases diag_inv.1 a with ⟨x, hx⟩ | ⟨d, hd⟩
          · rw [hx] at ha; injection ha with h1 h2; simp_all
          · rw [hd] at ha; simp at ha
        rw [List.cons_append, List.cons_append, parse_array_cons2, ha, hdsa]
        rcases c with ⟨s, tok⟩ | ⟨s, d, l⟩ | s <;> simp [isCommaTT] at hc
        cases tok <;> simp [isCommaTT] at hc
        simp [ih b rest hlen' hodd hvals hb]

/-- C6: for every parenthesized group, the Escape Handler hands the entire
enclosed token sequence to the external expression parser and wraps the
result in a convert-to-structured-value call (`($expr).to_json()`),
performing no JSON-grammar validation of its own and emitting no
diagnostic: this core never produces a JSON-grammar error for the contents
of a parenthesized escape. -/
theorem C6_escape_handler_opaque :
    ∀ (sp : Nat) (toks : List TokenTree),
      tt_to_expr (.ttDelimited sp .paren toks) = ([], some (.toJson toks)) := by
  intro sp toks
  simp [tt_to_expr]

/-- C7: with no tokens supplied, `expand` emits the empty-literal
diagnostic ("expected JSON literal") and hands the host the placeholder
`DummyResult` instead of a constructed value; likewise every internal
translation failure makes `expand` return the placeholder (with exactly
the diagnostics of the failed translation) rather than partial output. -/
theorem C7_empty_literal_dummy :
    (∀ sp : Nat, expand sp [] = ([⟨sp, "expected JSON literal"⟩], .dummy sp)) ∧
    (∀ (sp : Nat) (tt : TokenTree) (rest : List TokenTree) (ds : List Diag),
        tt_to_expr tt = (ds, none) → expand sp (tt :: rest) = (ds, .dummy sp)) := by
  constructor
  · intro sp; simp [expand]
  · intro sp tt rest ds h; simp [expand, h]

theorem C7_witness :
    expand 7 [TokenTree.ttToken 3 Token.minus] =
      ([⟨3, unexpectedMsg Token.minus⟩], .dummy 7) :=
  C7_empty_literal_dummy.2 7 (.ttToken 3 .minus) [] [⟨3, unexpectedMsg Token.minus⟩]
    (by simp [tt_to_expr, token_to_expr])

/-- C10: when the invocation supplies more than one top-level token tree,
only the first is translated — `expand` on `tt :: rest` equals `expand` on
`[tt]` for every `rest`, so the later trees are silently ignored with no
diagnostic; in particular `json!(1 2)` yields the expression for `1` alone
with no error. -/
theorem C10_extra_trees_ignored :
    (∀ (sp : Nat) (tt : TokenTree) (rest : List TokenTree),
        expand sp (tt :: rest) = expand sp [tt]) ∧
    expand 0 [TokenTree.ttToken 1 (Token.litInteger "1"),
              TokenTree.ttToken 2 (Token.litInteger "2")] =
      ([], .macExpr (.i64 "1")) := by
  constructor
  · intro sp tt rest; simp [expand]
  · simp [expand, tt_to_expr, token_to_expr]

/-- C3: the Token Classifier is deterministic and total on its domain: a
string literal yields a String-value expression, an integer literal an
I64-value expression, a float literal an F64-value expression, the plain
identifier `null` the Null expression, and the keywords `true`/`false` the
corresponding Boolean expressions; every token outside that domain
(including the separate minus punctuation token) fails with one diagnostic
whose message embeds the token rendered as text. -/
theorem C3_token_classifier :
    (∀ (sp : Nat) (s : String), token_to_expr sp (.litStr s) = ([], some (.jstring s))) ∧
    (∀ (sp : Nat) (s : String), token_to_expr sp (.litInteger s) = ([], some (.i64 s))) ∧
    (∀ (sp : Nat) (s : String), token_to_expr sp (.litFloat s) = ([], some (.f64 s))) ∧
    (∀ sp : Nat, token_to_expr sp (.ident "null" true) = ([], some .null)) ∧
    (∀ (sp : Nat) (plain : Bool),
        token_to_expr sp (.ident "true" plain) = ([], some (.boolean true))) ∧
    (∀ (sp : Nat) (plain : Bool),
        token_to_expr sp (.ident "false" plain) = ([], some (.boolean false))) ∧
    (∀ (sp : Nat) (tok : Token), classifiable tok = false →
        token_to_expr sp tok = ([⟨sp, unexpectedMsg tok⟩], none)) ∧
    (∀ sp : Nat, token_to_expr sp .minus = ([⟨sp, unexpectedMsg Token.minus⟩], none)) := by
  refine ⟨?_, ?_, ?_, ?_, ?_, ?_, ?_, ?_⟩
  case refine_7 =>
    intro sp tok h
    cases tok <;> simp_all [classifiable, token_to_expr]
  all_goals (intros; simp [token_to_expr])

theorem C3_witness :
    token_to_expr 5 (Token.other "@") =
      ([⟨5, unexpectedMsg (Token.other "@")⟩], none) :=
  C3_token_classifier.2.2.2.2.2.2.1 5 (.other "@") (by simp [classifiable])

/-- C8: span resolution prefers the failing token's own position and falls
back to the enclosing group's span supplied by the caller exactly for the
nodes that are not leaf tokens (which, as the spec puts it, have no
independent position of their own); moreover each failing translation
emits exactly one diagnostic and propagates failure as a sentinel return
value, while a successful translation emits none. -/
theorem C8_span_and_single_diagnostic :
    (∀ (sp tokSp : Nat) (tok : Token), best_span sp (.ttToken tokSp tok) = tokSp) ∧
    (∀ (sp : Nat) (tt : TokenTree),
        (∀ (s : Nat) (tok : Token), tt ≠ .ttToken s tok) → best_span sp tt = sp) ∧
    (∀ (tt : TokenTree) (ds : List Diag), tt_to_expr tt = (ds, none) → ds.length = 1) ∧
    (∀ (tt : TokenTree) (ds : List Diag) (e : Expr),
        tt_to_expr tt = (ds, some e) → ds = []) := by
  refine ⟨fun sp tokSp tok => rfl, ?_, ?_, ?_⟩
  · intro sp tt h
    cases tt with
    | ttToken s tok => exact absurd rfl (h s tok)
    | ttDelimited s d l => rfl
    | ttSequence s => rfl
  · intro tt ds h
    rcases diag_inv.1 tt with ⟨x, hx⟩ | ⟨d, hd⟩
    · rw [hx] at h; simp at h
    · rw [hd] at h
      injection h with h1 h2
      rw [← h1]
      rfl
  · intro tt ds e h
    rcases diag_inv.1 tt with ⟨x, hx⟩ | ⟨d, hd⟩
    · rw [hx] at h
      injection h with h1 h2
      exact h1.symm
    · rw [hd] at h; simp at h

theorem C8_witness :
    best_span 9 (TokenTree.ttDelimited 4 Delim.bracket []) = 9 ∧
    ([⟨3, unexpectedMsg Token.minus⟩] : List Diag).length = 1 :=
  ⟨C8_span_and_single_diagnostic.2.1 9 (.ttDelimited 4 .bracket [])
      (fun s tok h => nomatch h),
   C8_span_and_single_diagnostic.2.2.1 (.ttToken 3 .minus) [⟨3, unexpectedMsg Token.minus⟩]
      (by simp [tt_to_expr, token_to_expr])⟩

/-- C9: translation terminates on every finite token tree: running the
fuel-indexed copy of the translator with fuel equal to the input's size
never exhausts the fuel and returns exactly the translator's result, so
the recursion depth is bounded by the size of the input tree and the
translator is a total function from a token tree to an expression or an
error. -/
theorem C9_translation_terminates :
    ∀ tt : TokenTree, tt_to_expr_fuel tt.size tt = some (tt_to_expr tt) :=
  fun tt => fuel_ok.1 tt tt.size (Nat.le_refl _)


/-- C1: the Object Assembler partitions a brace group's tokens into
consecutive windows of four (the last may be shorter) and classifies each
window in the source's priority order: (string, colon, value, comma)
emits the pair and consumes four; (string, colon, value, end of input)
emits the pair consuming three, only as the final window; (string, colon,
value, other token) fails expecting a comma; (string, colon) alone fails
with "found `:` but no value afterwards" at the colon; (string, non-colon)
fails expecting a colon; a lone string fails with "found name but no
colon-value afterwards" at the string; a window whose first token is not a
string literal fails expecting a string literal. -/
theorem C1_object_windows :
    (∀ (sp s1 s2 s3 : Nat) (n : String) (v : TokenTree) (rest : List TokenTree)
        (e : Expr) (items : List (String × Expr)),
        tt_to_expr v = ([], some e) →
        parse_object sp rest = ([], some items) →
        parse_object sp (.ttToken s1 (.litStr n) :: .ttToken s2 .colon :: v ::
          .ttToken s3 .comma :: rest) = ([], some ((n, e) :: items))) ∧
    (∀ (sp s1 s2 : Nat) (n : String) (v : TokenTree) (e : Expr),
        tt_to_expr v = ([], some e) →
        parse_object sp [.ttToken s1 (.litStr n), .ttToken s2 .colon, v] =
          ([], some [(n, e)])) ∧
    (∀ (sp s1 s2 : Nat) (n : String) (v tt4 : TokenTree) (rest : List TokenTree),
        (∀ s : Nat, tt4 ≠ .ttToken s .comma) →
        parse_object sp (.ttToken s1 (.litStr n) :: .ttToken s2 .colon :: v ::
          tt4 :: rest) = ([expected_but_found sp "`,`" tt4], none)) ∧
    (∀ (sp s1 s2 : Nat) (n : String),
        parse_object sp [.ttToken s1 (.litStr n), .ttToken s2 .colon] =
          ([⟨s2, "found `:` but no value afterwards"⟩], none)) ∧
    (∀ (sp s1 : Nat) (n : String) (tt2 : TokenTree) (rest : List TokenTree),
        (∀ s : Nat, tt2 ≠ .ttToken s .colon) →
        parse_object sp (.ttToken s1 (.litStr n) :: tt2 :: rest) =
          ([expected_but_found sp "`:`" tt2], none)) ∧
    (∀ (sp s1 : Nat) (n : String),
        parse_object sp [.ttToken s1 (.litStr n)] =
          ([⟨s1, "found name but no colon-value afterwards"⟩], none)) ∧
    (∀ (sp : Nat) (tt1 : TokenTree) (rest : List TokenTree),
        (∀ (s : Nat) (str : String), tt1 ≠ .ttToken s (.litStr str)) →
        parse_object sp (tt1 :: rest) =
          ([expected_but_found sp "string literal" tt1], none)) := by
  refine ⟨?_, ?_, ?_, ?_, ?_, ?_, ?_⟩
  · intro sp s1 s2 s3 n v rest e items hv hrest
    simp [parse_object, hv, hrest]
  · intro sp s1 s2 n v e hv
    simp [parse_object, hv]
  · intro sp s1 s2 n v tt4 rest h
    rcases tt4 with ⟨s4, tok4⟩ | ⟨s4, d4, l4⟩ | s4
    · cases tok4 <;> first
        | exact absurd rfl (h s4)
        | simp [parse_object]
    · simp [parse_object]
    · simp [parse_object]
  · intro sp s1 s2 n
    simp [parse_object]
  · intro sp s1 n tt2 rest h
    rcases tt2 with ⟨s4, tok4⟩ | ⟨s4, d4, l4⟩ | s4
    · cases tok4 <;> first
        | exact absurd rfl (h s4)
        | (cases rest <;> simp [parse_object])
    · cases rest <;> simp [parse_object]
    · cases rest <;> simp [parse_object]
  · intro sp s1 n
    simp [parse_object]
  · intro sp tt1 rest h
    rcases tt1 with ⟨s4, tok4⟩ | ⟨s4, d4, l4⟩ | s4
    · cases tok4 <;> first
        | exact absurd rfl (h s4 _)
        | simp [parse_object]
    · simp [parse_object]
    · simp [parse_object]

theorem C1_witness :
    parse_object 0 [TokenTree.ttToken 1 (Token.litStr "a"), TokenTree.ttToken 2 Token.colon,
        TokenTree.ttToken 3 (Token.litInteger "1")] = ([], some [("a", Expr.i64 "1")]) ∧
    parse_object 0 [TokenTree.ttToken 1 (Token.litStr "a"), TokenTree.ttToken 2 Token.colon,
        TokenTree.ttToken 3 (Token.litInteger "1"), TokenTree.ttToken 4 (Token.litInteger "2")] =
      ([expected_but_found 0 "`,`" (TokenTree.ttToken 4 (Token.litInteger "2"))], none) ∧
    parse_object 0 [TokenTree.ttToken 1 (Token.litStr "a"),
        TokenTree.ttToken 2 (Token.litInteger "1")] =
      ([expected_but_found 0 "`:`" (TokenTree.ttToken 2 (Token.litInteger "1"))], none) ∧
    parse_object 0 [TokenTree.ttToken 1 Token.comma] =
      ([expected_but_found 0 "string literal" (TokenTree.ttToken 1 Token.comma)], none) :=
  ⟨C1_object_windows.2.1 0 1 2 "a" (.ttToken 3 (.litInteger "1")) (.i64 "1")
      (by simp [tt_to_expr, token_to_expr]),
   C1_object_windows.2.2.1 0 1 2 "a" (.ttToken 3 (.litInteger "1"))
      (.ttToken 4 (.litInteger "2")) [] (fun s h => nomatch h),
   C1_object_windows.2.2.2.2.1 0 1 "a" (.ttToken 2 (.litInteger "1")) []
      (fun s h => nomatch h),
   C1_object_windows.2.2.2.2.2.2 0 (.ttToken 1 Token.comma) []
      (fun s str h => nomatch h)⟩

/-- C2: the Array Assembler translates each token at an even (0-indexed)
position as a value and requires each token at an odd position to be
exactly a comma: a successful parse means all odd positions were commas,
no diagnostics were emitted and the collected values are the translations
of the even positions in encounter order; conversely comma-separated
translatable values always parse; and the first non-comma token at an odd
position aborts the whole array with exactly the expected-comma diagnostic
for that token and no partial result. -/
theorem C2_array_positions :
    (∀ (sp : Nat) (tts : List TokenTree) (ds : List Diag) (es : List Expr),
        parse_array sp tts = (ds, some es) →
        oddCommas tts = true ∧ ds = [] ∧
          (evens tts).map (fun tt => (tt_to_expr tt).2) = es.map some) ∧
    (∀ (sp : Nat) (tts : List TokenTree), oddCommas tts = true →
        (∀ tt ∈ evens tts, ((tt_to_expr tt).2).isSome = true) →
        ∃ es, parse_array sp tts = ([], some es) ∧
          (evens tts).map (fun tt => (tt_to_expr tt).2) = es.map some) ∧
    (∀ (sp : Nat) (pre : List TokenTree) (b : TokenTree) (rest : List TokenTree),
        pre.length % 2 = 1 → oddCommas pre = true →
        (∀ tt ∈ evens pre, ((tt_to_expr tt).2).isSome = true) →
        isCommaTT b = false →
        parse_array sp (pre ++ b :: rest) =
          ([expected_but_found sp "`,`" b], none)) :=
  ⟨parse_array_sound, parse_array_complete, parse_array_first_fail⟩

theorem C2_witness :
    parse_array 0 ([TokenTree.ttToken 1 (Token.litInteger "1")] ++
        TokenTree.ttToken 2 (Token.litInteger "2") :: []) =
      ([expected_but_found 0 "`,`" (TokenTree.ttToken 2 (Token.litInteger "2"))], none) :=
  C2_array_positions.2.2 0 [.ttToken 1 (.litInteger "1")]
    (.ttToken 2 (.litInteger "2")) [] (by simp) (by simp [oddCommas])
    (by
      intro tt htt
      simp [evens] at htt
      subst htt
      simp [tt_to_expr, token_to_expr])
    (by simp [isCommaTT])

/-- C4: the translator never rejects or warns on duplicate object keys:
every well-formed entry sequence parses to all its (key, value) pairs in
source order with no diagnostics regardless of key repetition, the
generated expression inserts each pair in order into a fresh key-ordered
mapping where insertion is last-write-wins, and concretely
`{"k":1,"k":2}` translates to an object whose runtime lookup of "k"
returns the value 2. -/
theorem C4_duplicate_keys_last_write_wins :
    (∀ (sp : Nat) (entries : List (Nat × String × TokenTree)) (vs : List Expr),
        (entries.map fun e => (tt_to_expr e.2.2).2) = vs.map some →
        parse_object sp (flattenEntries entries) =
          ([], some ((entries.map fun e => e.2.1).zip vs))) ∧
    (∀ (ps : List (String × Expr)) (k : String) (v : Expr),
        tmLookup (buildObject (ps ++ [(k, v)])) k = some v) ∧
    (tt_to_expr (.ttDelimited 0 .brace
        [.ttToken 1 (.litStr "k"), .ttToken 2 .colon, .ttToken 3 (.litInteger "1"),
         .ttToken 4 .comma, .ttToken 5 (.litStr "k"), .ttToken 6 .colon,
         .ttToken 7 (.litInteger "2")]) =
      ([], some (.object [("k", .i64 "1"), ("k", .i64 "2")]))) ∧
    tmLookup (buildObject [("k", Expr.i64 "1"), ("k", Expr.i64 "2")]) "k" =
      some (.i64 "2") :=
  ⟨parse_object_flatten, buildObject_lastWrite,
   by simp [tt_to_expr, parse_object, token_to_expr],
   by simp [buildObject, tmInsert, tmLookup]⟩

theorem C4_witness :
    parse_object 0 (flattenEntries
        [(1, "k", TokenTree.ttToken 3 (Token.litInteger "1")),
         (5, "k", TokenTree.ttToken 7 (Token.litInteger "2"))]) =
      ([], some [("k", Expr.i64 "1"), ("k", Expr.i64 "2")]) :=
  C4_duplicate_keys_last_write_wins.1 0
    [(1, "k", .ttToken 3 (.litInteger "1")), (5, "k", .ttToken 7 (.litInteger "2"))]
    [.i64 "1", .i64 "2"] (by simp [tt_to_expr, token_to_expr])

/-- C5: an array token sequence ending in a comma at an odd position is
accepted without error — appending a trailing comma to any successfully
parsed odd-length token sequence leaves the parse result unchanged, so
`[1,2,]` yields exactly the values before the trailing comma; the
algorithm never separately verifies that a value is present at the final
position. -/
theorem C5_trailing_comma_accepted :
    (∀ (sp s : Nat) (tts : List TokenTree) (es : List Expr),
        tts.length % 2 = 1 → parse_array sp tts = ([], some es) →
        parse_array sp (tts ++ [.ttToken s .comma]) = ([], some es)) ∧
    tt_to_expr (.ttDelimited 0 .bracket
        [.ttToken 1 (.litInteger "1"), .ttToken 2 .comma,
         .ttToken 3 (.litInteger "2"), .ttToken 4 .comma]) =
      ([], some (.list [.i64 "1", .i64 "2"])) := by
  constructor
  · intro sp s tts
    induction tts using evens.induct with
    | case1 =>
        intro es h
        simp at h
    | case2 a =>
        intro es _ hpa
        rw [parse_array_single] at hpa
        rcases ha : tt_to_expr a with ⟨dsa, _ | e⟩
        · rw [ha] at hpa; simp at hpa
        · rw [ha] at hpa
          simp at hpa
          obtain ⟨rfl, rfl⟩ := hpa
          rw [List.cons_append, List.nil_append, parse_array_cons2, ha,
            parse_array_nil]
          simp
    | case3 a b rest ih =>
        intro es hlen hpa
        rw [parse_array_cons2] at hpa
        rcases ha : tt_to_expr a with ⟨dsa, _ | e⟩
        · rw [ha] at hpa; simp at hpa
        · rw [ha] at hpa
          rcases b with ⟨sb, tok⟩ | ⟨sb, d, l⟩ | sb <;> try (simp at hpa)
          cases tok <;> try (simp at hpa)
          case comma =>
            rcases hrest : parse_array sp rest with ⟨ds2, _ | es2⟩
            · rw [hrest] at hpa; simp at hpa
            · rw [hrest] at hpa
              simp at hpa
              obtain ⟨⟨rfl, rfl⟩, rfl⟩ := hpa
              have hlen2 : rest.length % 2 = 1 := by simp at hlen; omega
              have hih := ih es2 hlen2 hrest
              rw [List.cons_append, List.cons_append, parse_array_cons2, ha]
              simp [hih]
  · simp [tt_to_expr, parse_array_nil, parse_array_cons2, token_to_expr]

theorem C5_witness :
    parse_array 0 ([TokenTree.ttToken 1 (Token.litInteger "1")] ++
        [TokenTree.ttToken 2 Token.comma]) = ([], some [Expr.i64 "1"]) :=
  C5_trailing_comma_accepted.1 0 2 [.ttToken 1 (.litInteger "1")] [.i64 "1"]
    (by simp)
    (by rw [parse_array_single]; simp [tt_to_expr, token_to_expr])


end JsonLit
